import Mathlib

/-!
Verification development for the PragaTrends repository.

The repository collects search-interest time series per pest category
(`coletor_trends.py`), stores them in a single SQLite table `trends`,
and renders them (`visualizador.py`, `gerar_todos_graficos.py`,
`dashboard.py`).  This file gives a shallow embedding of the data model
and of the operations of those scripts, and proves the specification
claims about them.

Conventions of the embedding:
* a SQLite table is a `List Row` in insertion (rowid) order;
* `INSERT OR REPLACE` deletes the conflicting row and appends the new one,
  as SQLite does;
* `ORDER BY` is modelled by an insertion sort on the relevant key
  (the claims only depend on sortedness and on the multiset of rows);
* dates handled by the dashboard are absolute day numbers
  (days since 1970-01-01); the civil calendar is embedded through the
  month lengths of the Gregorian calendar;
* the external trends provider is modelled by one outcome per attempt
  (a returned table, a rate-limit error, or another error), exactly the
  three cases `buscar_dados_trends` distinguishes.
-/

/-! ## Sorting utility (model of SQL ORDER BY and pandas sort_values) -/

def insOrd {α β : Type} [LinearOrder β] (key : α → β) (a : α) : List α → List α
  | [] => [a]
  | b :: t => if key a ≤ key b then a :: b :: t else b :: insOrd key a t

def ordenarPor {α β : Type} [LinearOrder β] (key : α → β) : List α → List α
  | [] => []
  | a :: t => insOrd key a (ordenarPor key t)

theorem insOrd_perm {α β : Type} [LinearOrder β] (key : α → β) (a : α) :
    ∀ l : List α, (insOrd key a l).Perm (a :: l) := by
  intro l
  induction l with
  | nil => exact List.Perm.refl _
  | cons b t ih =>
    by_cases h : key a ≤ key b
    · simp [insOrd, h]
    · simpa [insOrd, h] using ((ih.cons b).trans (List.Perm.swap a b t))

theorem ordenarPor_perm {α β : Type} [LinearOrder β] (key : α → β) :
    ∀ l : List α, (ordenarPor key l).Perm l := by
  intro l
  induction l with
  | nil => exact List.Perm.refl _
  | cons a t ih => exact (insOrd_perm key a (ordenarPor key t)).trans (ih.cons a)

theorem insOrd_pairwise {α β : Type} [LinearOrder β] (key : α → β) (a : α) :
    ∀ l : List α, List.Pairwise (fun x y => key x ≤ key y) l →
      List.Pairwise (fun x y => key x ≤ key y) (insOrd key a l) := by
  intro l
  induction l with
  | nil => intro _; simp [insOrd]
  | cons b t ih =>
    intro h
    rcases List.pairwise_cons.mp h with ⟨hb, ht⟩
    by_cases hab : key a ≤ key b
    · rw [insOrd, if_pos hab]
      refine List.pairwise_cons.mpr ⟨?_, h⟩
      intro y hy
      rcases List.mem_cons.mp hy with rfl | hyt
      · exact hab
      · exact le_trans hab (hb y hyt)
    · rw [insOrd, if_neg hab]
      refine List.pairwise_cons.mpr ⟨?_, ih ht⟩
      intro y hy
      have hy' : y ∈ a :: t := (insOrd_perm key a t).mem_iff.mp hy
      rcases List.mem_cons.mp hy' with rfl | hyt
      · exact le_of_not_le hab
      · exact hb y hyt

theorem ordenarPor_pairwise {α β : Type} [LinearOrder β] (key : α → β) :
    ∀ l : List α, List.Pairwise (fun x y => key x ≤ key y) (ordenarPor key l) := by
  intro l
  induction l with
  | nil => simp [ordenarPor]
  | cons a t ih => exact insOrd_pairwise key a (ordenarPor key t) ih

theorem insOrd_eq_cons {α β : Type} [LinearOrder β] (key : α → β) (a : α) (l : List α)
    (h : ∀ y ∈ l, key a ≤ key y) : insOrd key a l = a :: l := by
  cases l with
  | nil => rfl
  | cons b t => simp [insOrd, h b (List.mem_cons_self b t)]

theorem ordenarPor_eq_self {α β : Type} [LinearOrder β] (key : α → β) :
    ∀ l : List α, List.Pairwise (fun x y => key x ≤ key y) l → ordenarPor key l = l := by
  intro l
  induction l with
  | nil => intro _; rfl
  | cons a t ih =>
    intro h
    rcases List.pairwise_cons.mp h with ⟨ha, ht⟩
    rw [ordenarPor, ih ht, insOrd_eq_cons key a t ha]

/-! ## Data model: the `trends` table (src/coletor_trends.py, `iniciar_banco`)

One stored record; the primary key of the table is
(data, termo_busca, geolocalizacao, categoria). -/

structure Row where
  data : String
  termo_busca : String
  interesse : Int
  geolocalizacao : String
  categoria : String
deriving DecidableEq

/-- The primary-key comparison of the `trends` table. -/
def sameKey (r s : Row) : Bool :=
  r.data == s.data && r.termo_busca == s.termo_busca &&
    r.geolocalizacao == s.geolocalizacao && r.categoria == s.categoria

theorem sameKey_iff {r s : Row} :
    sameKey r s = true ↔
      (r.data = s.data ∧ r.termo_busca = s.termo_busca ∧
        r.geolocalizacao = s.geolocalizacao ∧ r.categoria = s.categoria) := by
  simp [sameKey, and_assoc]

theorem sameKey_symm (r s : Row) : sameKey r s = sameKey s r := by
  by_cases h : sameKey r s = true
  · have h' := sameKey_iff.mp h
    exact h.trans (sameKey_iff.mpr ⟨h'.1.symm, h'.2.1.symm, h'.2.2.1.symm, h'.2.2.2.symm⟩).symm
  · have h2 : ¬ sameKey s r = true := by
      intro hc
      have h' := sameKey_iff.mp hc
      exact h (sameKey_iff.mpr ⟨h'.1.symm, h'.2.1.symm, h'.2.2.1.symm, h'.2.2.2.symm⟩)
    simp [Bool.eq_false_iff.mpr h, Bool.eq_false_iff.mpr h2]

theorem sameKey_trans {r a b : Row} (h1 : sameKey r a = true) (h2 : sameKey r b = true) :
    sameKey a b = true := by
  have g1 := sameKey_iff.mp h1
  have g2 := sameKey_iff.mp h2
  exact sameKey_iff.mpr ⟨g1.1.symm.trans g2.1, g1.2.1.symm.trans g2.2.1,
    g1.2.2.1.symm.trans g2.2.2.1, g1.2.2.2.symm.trans g2.2.2.2⟩

theorem sameKey_categoria {r s : Row} (h : sameKey r s = true) : r.categoria = s.categoria :=
  (sameKey_iff.mp h).2.2.2

/-- SQLite `INSERT OR REPLACE`: the rows conflicting on the primary key are
deleted and the new row is inserted (appended in rowid order). -/
def insertOrReplace (table : List Row) (r : Row) : List Row :=
  table.filter (fun s => !(sameKey r s)) ++ [r]

/-- `cursor.executemany` of the INSERT OR REPLACE statement over a batch. -/
def upsert (table : List Row) (records : List Row) : List Row :=
  records.foldl insertOrReplace table

/-! ## Provider tables (pandas DataFrame as returned by pytrends)

`index` is the list of dates (one per row, already formatted as ISO
`YYYY-MM-DD` strings, as `salvar_dados_no_banco` writes them), `cols`
is one `(column name, column values)` pair per search term (plus the
optional `isPartial` marker column). -/

structure DataFrame where
  index : List String
  cols : List (String × List Int)
deriving DecidableEq

/-- `if 'isPartial' in df.columns: df = df.drop(columns=['isPartial'])`
(src/coletor_trends.py, `buscar_dados_trends`). -/
def dropPartialColumn (df : DataFrame) : DataFrame :=
  if df.cols.any (fun c => c.1 = "isPartial") then
    DataFrame.mk df.index (df.cols.filter (fun c => c.1 ≠ "isPartial"))
  else df

/-! ## Fetcher (src/coletor_trends.py, `buscar_dados_trends`)

Each attempt against the provider either returns a table, raises a
rate-limit error (a `429` in the message), or raises some other error;
`outcomes k` is what the provider does on attempt `k`. The function
returns the fetched table (`none` = the Python `None`, "no data")
together with the list of sleep durations performed between attempts. -/

inductive FetchOutcome where
  | ok (df : DataFrame)
  | err429
  | errOther
deriving DecidableEq

def fetchLoop (outcomes : Nat → FetchOutcome) (initialDelay : Nat) :
    Nat → Nat → Option DataFrame × List Nat
  | _, 0 => (none, [])
  | attempt, fuel + 1 =>
    match outcomes attempt with
    | .ok df =>
      if df.index.isEmpty then (none, [])
      else (some (dropPartialColumn df), [])
    | .err429 =>
      if 0 < fuel then
        let delay := initialDelay * 2 ^ attempt
        let rest := fetchLoop outcomes initialDelay (attempt + 1) fuel
        (rest.1, delay :: rest.2)
      else (none, [])
    | .errOther => (none, [])

/-- `buscar_dados_trends(termos, geo, timeframe, retries, initial_delay)`:
the `for attempt in range(retries)` loop, with the provider call abstracted
into `outcomes`.  Result: the returned value and the sleeps performed. -/
def buscar_dados_trends (outcomes : Nat → FetchOutcome)
    (retries initialDelay : Nat) : Option DataFrame × List Nat :=
  fetchLoop outcomes initialDelay 0 retries

/-! ## Store operations (src/coletor_trends.py and src/visualizador.py) -/

/-- `pd.melt` of the wide provider table into long form, then the rows
`(data, termo_busca, interesse, geolocalizacao, categoria)` that
`salvar_dados_no_banco` passes to `executemany` (src/coletor_trends.py).
`melt` emits all rows of the first term column, then the second, … -/
def meltRecords (df : DataFrame) (categoria geolocation : String) : List Row :=
  df.cols.flatMap (fun c =>
    (df.index.zip c.2).map (fun dv => Row.mk dv.1 c.1 dv.2 geolocation categoria))

/-- The `executemany` over the batch, with injected storage failures:
`fails i = true` means the SQLite layer raises on the `i`-th record.
`none` = an exception was raised (nothing was committed). -/
def executemanyFallible : List Row → List Row → Nat → (Nat → Bool) → Option (List Row)
  | t, [], _, _ => some t
  | t, r :: rs, i, fails =>
    if fails i then none else executemanyFallible (insertOrReplace t r) rs (i + 1) fails

/-- `salvar_dados_no_banco(df, categoria, geolocation, db_file)`: melt the
table, `executemany` the INSERT OR REPLACE batch, `conn.commit()`.  On any
exception the error is printed and the function returns with the table
as it was (nothing was committed). -/
def salvar_dados_no_banco (table : List Row) (df : DataFrame)
    (categoria geolocation : String) (fails : Nat → Bool) : List Row :=
  match executemanyFallible table (meltRecords df categoria geolocation) 0 fails with
  | some t => t
  | none => table

/-- `listar_categorias`: `SELECT DISTINCT categoria FROM trends ORDER BY categoria`
(src/visualizador.py). -/
def listar_categorias (table : List Row) : List String :=
  ordenarPor id (table.map (fun r => r.categoria)).dedup

/-- `buscar_dados_categoria`: `SELECT data, termo_busca, interesse FROM trends
WHERE categoria = ? ORDER BY data` (src/visualizador.py). -/
def buscar_dados_categoria (table : List Row) (categoria : String) :
    List (String × String × Int) :=
  ordenarPor (fun p => p.1)
    ((table.filter (fun r => r.categoria == categoria)).map
      (fun r => (r.data, r.termo_busca, r.interesse)))

/-! ## The two storage file constants and the batch generator (claim C1)

`coletor_trends.py` and `visualizador.py` each define their own `DB_FILE`;
`gerar_todos_graficos.py` imports the one from `visualizador`, while the
collector writes through its own.  A "file system" maps a file name to the
table stored in that SQLite file. -/

namespace Coletor

/-- src/coletor_trends.py line 30. -/
def DB_FILE : String := "tendencias_pragas_v4.db"

/-- src/coletor_trends.py, `GEOLOCATION`. -/
def GEOLOCATION : String := "BR"

end Coletor

namespace Visualizador

/-- src/visualizador.py line 15. -/
def DB_FILE : String := "tendencias_pragas.db"

end Visualizador

/-- The collection loop of `coletor_trends.main()`: for each category whose
fetch produced a non-empty table, save it into the collector's `DB_FILE`.
`resultados` is the per-category fetch result. -/
def coletorMain (fs : String → List Row)
    (resultados : List (String × Option DataFrame)) : String → List Row :=
  resultados.foldl
    (fun fs' cr =>
      match cr.2 with
      | some df =>
        if df.index.isEmpty then fs'
        else fun name =>
          if name = Coletor.DB_FILE then
            salvar_dados_no_banco (fs' Coletor.DB_FILE) df cr.1 Coletor.GEOLOCATION
              (fun _ => false)
          else fs' name
      | none => fs')
    fs

/-- `gerar_todos_graficos.main()`: list the categories of the visualizador's
`DB_FILE`, and for each category with data write one chart file
`graficos/grafico_<categoria with spaces replaced>.png`.  Returns the chart
files written. -/
def gerar_todos_graficos (fs : String → List Row) : List String :=
  (listar_categorias (fs Visualizador.DB_FILE)).filterMap (fun cat =>
    if buscar_dados_categoria (fs Visualizador.DB_FILE) cat = [] then none
    else some ("graficos/grafico_" ++ cat.replace " " "_" ++ ".png"))

/-! ## Calendar (the timestamp arithmetic behind the dashboard)

`dashboard.py` works on pandas timestamps; the embedding uses absolute
day numbers (days since 1970-01-01, a Thursday).  `monthStart k` is the
day number of the first day of the `k`-th calendar month after January
1970; `monthIdx z` is the month a day falls in, `weekLabel z` the label
pandas `resample('W')` gives the week of day `z` (the Sunday on or after
`z`, weeks being right-closed and right-labelled on Sundays). -/

def bissexto (y : Nat) : Bool :=
  (y % 4 = 0 && y % 100 != 0) || y % 400 = 0

/-- Length in days of calendar month number `k` (k = 0 is January 1970);
month `k` is month `k % 12 + 1` of year `1970 + k / 12`. -/
def monthLen (k : Nat) : Nat :=
  if k % 12 + 1 = 2 then (if bissexto (1970 + k / 12) then 29 else 28)
  else if k % 12 + 1 = 4 ∨ k % 12 + 1 = 6 ∨ k % 12 + 1 = 9 ∨ k % 12 + 1 = 11 then 30
  else 31

/-- Day number of the first day of calendar month `k`
(pandas `to_period('M').to_timestamp()` of any day in that month). -/
def monthStart : Nat → Nat
  | 0 => 0
  | k + 1 => monthStart k + monthLen k

def monthIdxGo (z : Nat) : Nat → Nat → Nat → Nat
  | _, k, 0 => k
  | acc, k, fuel + 1 =>
    if acc + monthLen k ≤ z then monthIdxGo z (acc + monthLen k) (k + 1) fuel else k

/-- The calendar month a day number falls in (`to_period('M')`). -/
def monthIdx (z : Nat) : Nat :=
  monthIdxGo z 0 0 (z + 1)

/-- The Sunday on or after day `z`: the label `resample('W')` assigns to
`z`'s week (1970-01-01 is a Thursday, so day `z` is a Sunday iff
`z % 7 = 3`). -/
def weekLabel (z : Nat) : Nat :=
  z + (10 - z % 7) % 7

/-! ## Dashboard aggregation pipeline (src/dashboard.py, lines 96-124)

A point of the aggregated series `df_agregado` is `(day number, interest)`
with rational interest (sums of the per-term integers; resampling then
takes means).  `none` in a resampled series is pandas' `NaN` for an empty
bucket. -/

/-- Mean of a bucket: `NaN` (here `none`) when the bucket is empty. -/
def mean (l : List ℚ) : Option ℚ :=
  if l = [] then none else some (l.sum / (l.length : ℚ))

/-- Smallest date of a series (`df['data'].min()`); only used non-empty. -/
def minDate (df : List (Nat × ℚ)) : Nat :=
  match df with
  | [] => 0
  | p :: t => t.foldl (fun a q => min a q.1) p.1

/-- Largest date of a series (`df['data'].max()`); only used non-empty. -/
def maxDate (df : List (Nat × ℚ)) : Nat :=
  match df with
  | [] => 0
  | p :: t => t.foldl (fun a q => max a q.1) p.1

/-- `resample('MS').mean()`: one bucket per calendar month from the month
of the first date to the month of the last date, labelled with the month
start, `NaN` (= `none`) for months without data. -/
def resampleMS (df : List (Nat × ℚ)) : List (Nat × Option ℚ) :=
  if df = [] then []
  else
    let m0 := monthIdx (minDate df)
    let m1 := monthIdx (maxDate df)
    (List.range (m1 - m0 + 1)).map (fun i =>
      (monthStart (m0 + i),
        mean ((df.filter (fun p => monthIdx p.1 = m0 + i)).map (fun p => p.2))))

/-- `resample('W').mean()`: one bucket per week (Sunday-ended,
right-labelled) from the week of the first date to the week of the last
date, `NaN` for weeks without data. -/
def resampleW (df : List (Nat × ℚ)) : List (Nat × Option ℚ) :=
  if df = [] then []
  else
    let w0 := weekLabel (minDate df)
    let w1 := weekLabel (maxDate df)
    (List.range ((w1 - w0) / 7 + 1)).map (fun i =>
      (w0 + 7 * i,
        mean ((df.filter (fun p => weekLabel p.1 = w0 + 7 * i)).map (fun p => p.2))))

/-- `df_final.dropna()`: drop the rows whose interest is `NaN`. -/
def dropna (df : List (Nat × Option ℚ)) : List (Nat × ℚ) :=
  df.filterMap (fun p => p.2.map (fun v => (p.1, v)))

/-- The mixed-granularity block of src/dashboard.py: split the aggregated
series at the start of the month of its last date, resample the earlier
part monthly and the later part weekly, concatenate, drop NaN rows and
sort by date (`df_final`). -/
def granularidadeMista (dfAgregado : List (Nat × ℚ)) : List (Nat × ℚ) :=
  if dfAgregado = [] then []
  else
    let lastDate := maxDate dfAgregado
    let startOfLastMonth := monthStart (monthIdx lastDate)
    let dfHistorico := dfAgregado.filter (fun p => p.1 < startOfLastMonth)
    let dfRecente := dfAgregado.filter (fun p => startOfLastMonth ≤ p.1)
    let dfMensal := if dfHistorico = [] then [] else resampleMS dfHistorico
    let dfSemanal := if dfRecente = [] then [] else resampleW dfRecente
    ordenarPor (fun p => p.1) (dropna (dfMensal ++ dfSemanal))

/-- `df_final['interesse'].max()`; only used on a non-empty series. -/
def maxInteresse (df : List (Nat × ℚ)) : ℚ :=
  match df with
  | [] => 0
  | p :: t => t.foldl (fun a q => max a q.2) p.2

/-- The re-normalization block of src/dashboard.py: if the series is
non-empty and its maximum is positive, rescale every interest to
`interesse / max_interesse * 100`; otherwise leave the series as is. -/
def renormalizar (dfFinal : List (Nat × ℚ)) : List (Nat × ℚ) :=
  if dfFinal = [] then dfFinal
  else
    let mx := maxInteresse dfFinal
    if 0 < mx then dfFinal.map (fun p => (p.1, p.2 / mx * 100))
    else dfFinal

/-! ## Fetcher lemmas -/

theorem fetchLoop_all429 (o : Nat → FetchOutcome) (d : Nat)
    (h : ∀ k, o k = .err429) :
    ∀ fuel attempt, fetchLoop o d attempt fuel =
      (none, (List.range (fuel - 1)).map (fun i => d * 2 ^ (attempt + i))) := by
  intro fuel
  induction fuel with
  | zero => intro attempt; rfl
  | succ f ih =>
    intro attempt
    rw [fetchLoop, h attempt]
    cases f with
    | zero => simp
    | succ f' =>
      have hpos : 0 < f' + 1 := Nat.succ_pos f'
      have hmap : ((fun i => d * 2 ^ (attempt + i)) ∘ Nat.succ) =
          (fun i => d * 2 ^ (attempt + 1 + i)) := by
        funext i
        simp only [Function.comp]
        congr 1
        congr 1
        omega
      rw [if_pos hpos, ih (attempt + 1)]
      simp only [Nat.succ_sub_one, List.range_succ_eq_map, List.map_cons, List.map_map,
        hmap, Nat.add_zero]

theorem fetchLoop_success (o : Nat → FetchOutcome) (d : Nat) (df : DataFrame)
    (hne : df.index ≠ []) :
    ∀ k attempt fuel, (∀ j, j < k → o (attempt + j) = .err429) →
      o (attempt + k) = .ok df → k < fuel →
      (fetchLoop o d attempt fuel).1 = some (dropPartialColumn df) := by
  intro k
  induction k with
  | zero =>
    intro attempt fuel _ hok hfuel
    cases fuel with
    | zero => omega
    | succ f =>
      rw [fetchLoop]
      rw [Nat.add_zero] at hok
      rw [hok]
      simp [List.isEmpty_iff, hne]
  | succ k ih =>
    intro attempt fuel h429 hok hfuel
    cases fuel with
    | zero => omega
    | succ f =>
      have h0 : o attempt = .err429 := by
        have := h429 0 (Nat.succ_pos k)
        simpa using this
      rw [fetchLoop, h0]
      have hposf : 0 < f := by omega
      rw [if_pos hposf]
      simp only
      refine ih (attempt + 1) f ?_ ?_ (by omega)
      · intro j hj
        have := h429 (j + 1) (by omega)
        simpa [Nat.add_assoc, Nat.add_comm 1 j] using this
      · have : attempt + 1 + k = attempt + (k + 1) := by omega
        rw [this]
        exact hok

/-- **C2.** With `retries = 3`, a rate-limit error on attempts 1 and 2 and a
non-empty result on attempt 3, `buscar_dados_trends` returns the successful
table (with the `isPartial` column stripped) and sleeps exactly twice, for
`initial_delay * 1` and then `initial_delay * 2`. -/
theorem claim_C2_retry_backoff (o : Nat → FetchOutcome) (d : Nat) (df : DataFrame)
    (h0 : o 0 = .err429) (h1 : o 1 = .err429) (h2 : o 2 = .ok df)
    (hne : df.index ≠ []) :
    buscar_dados_trends o 3 d = (some (dropPartialColumn df), [d * 1, d * 2]) := by
  rw [buscar_dados_trends]
  rw [fetchLoop, h0, if_pos (by omega : (0:Nat) < 2)]
  rw [fetchLoop, h1, if_pos (by omega : (0:Nat) < 1)]
  rw [fetchLoop, h2]
  simp [List.isEmpty_iff, hne, pow_succ]

/-- Witness for C2 at a concrete provider behaviour. -/
theorem claim_C2_retry_backoff_witness :
    buscar_dados_trends
      (fun k => if k = 0 then .err429 else if k = 1 then .err429
        else .ok (DataFrame.mk ["2020-01-05"] [("lesma", [42]), ("isPartial", [0])]))
      3 10 =
      (some (dropPartialColumn
        (DataFrame.mk ["2020-01-05"] [("lesma", [42]), ("isPartial", [0])])),
        [10 * 1, 10 * 2]) :=
  claim_C2_retry_backoff _ 10 _ rfl rfl rfl (by decide)

/-- **C7.** `buscar_dados_trends` is total (the embedding is a function) and
returns "no data" (`none`) in every failure mode: immediately on an empty
provider table, immediately on a non-rate-limit error (both without any
sleep/retry), and after the bounded number of attempts under persistent
rate limiting, with the backoff sleeps `d * 2^k`; on a first success after
rate-limit errors it returns the provider's table. -/
theorem claim_C7_total_failure_modes :
    (∀ (o : Nat → FetchOutcome) (r d : Nat) (df : DataFrame),
      o 0 = .ok df → df.index = [] → 1 ≤ r →
        buscar_dados_trends o r d = (none, []))
    ∧ (∀ (o : Nat → FetchOutcome) (r d : Nat),
      o 0 = .errOther → 1 ≤ r →
        buscar_dados_trends o r d = (none, []))
    ∧ (∀ (o : Nat → FetchOutcome) (r d : Nat),
      (∀ k, o k = .err429) →
        buscar_dados_trends o r d =
          (none, (List.range (r - 1)).map (fun i => d * 2 ^ i)))
    ∧ (∀ (o : Nat → FetchOutcome) (r d : Nat) (df : DataFrame) (k : Nat),
      (∀ j, j < k → o j = .err429) → o k = .ok df → df.index ≠ [] → k < r →
        (buscar_dados_trends o r d).1 = some (dropPartialColumn df)) := by
  refine ⟨?_, ?_, ?_, ?_⟩
  · intro o r d df hok hempty hr
    cases r with
    | zero => omega
    | succ r' =>
      rw [buscar_dados_trends, fetchLoop, hok]
      simp [List.isEmpty_iff, hempty]
  · intro o r d hother hr
    cases r with
    | zero => omega
    | succ r' =>
      rw [buscar_dados_trends, fetchLoop, hother]
  · intro o r d h429
    rw [buscar_dados_trends, fetchLoop_all429 o d h429 r 0]
    simp
  · intro o r d df k h429 hok hne hk
    exact fetchLoop_success o d df hne k 0 r (by simpa using h429) (by simpa using hok) hk

/-- Witness for C7: each failure mode at a concrete input. -/
theorem claim_C7_total_failure_modes_witness :
    buscar_dados_trends (fun _ => .ok (DataFrame.mk [] [])) 3 10 = (none, [])
    ∧ buscar_dados_trends (fun _ => .errOther) 3 10 = (none, [])
    ∧ buscar_dados_trends (fun _ => .err429) 3 10 =
        (none, (List.range 2).map (fun i => 10 * 2 ^ i))
    ∧ (buscar_dados_trends
        (fun k => if k < 2 then .err429 else .ok (DataFrame.mk ["2020-01-05"] [("rato", [7])]))
        3 10).1 =
        some (dropPartialColumn (DataFrame.mk ["2020-01-05"] [("rato", [7])])) :=
  ⟨claim_C7_total_failure_modes.1 _ 3 10 _ rfl rfl (by decide),
   claim_C7_total_failure_modes.2.1 _ 3 10 rfl (by decide),
   claim_C7_total_failure_modes.2.2.1 _ 3 10 (fun _ => rfl),
   claim_C7_total_failure_modes.2.2.2 _ 3 10 _ 2
     (by intro j hj; interval_cases j <;> rfl) rfl (by decide) (by decide)⟩

/-! ## Store lemmas -/

theorem insertOrReplace_no_conflict (t : List Row) (r : Row)
    (h : ∀ s ∈ t, sameKey r s = false) : insertOrReplace t r = t ++ [r] := by
  unfold insertOrReplace
  rw [List.filter_eq_self.mpr]
  intro s hs
  simp [h s hs]

theorem upsert_no_conflict (recs : List Row) :
    ∀ t : List Row, (∀ r ∈ recs, ∀ s ∈ t, sameKey r s = false) →
      recs.Pairwise (fun a b => sameKey a b = false) →
      upsert t recs = t ++ recs := by
  induction recs with
  | nil => intro t _ _; simp [upsert]
  | cons r rs ih =>
    intro t hcross hpw
    rcases List.pairwise_cons.mp hpw with ⟨hr, hrs⟩
    have step : insertOrReplace t r = t ++ [r] :=
      insertOrReplace_no_conflict t r (hcross r (List.mem_cons_self r rs))
    have hcross' : ∀ r' ∈ rs, ∀ s ∈ t ++ [r], sameKey r' s = false := by
      intro r' hr' s hs
      rcases List.mem_append.mp hs with hst | hsr
      · exact hcross r' (List.mem_cons_of_mem r hr') s hst
      · have : s = r := List.mem_singleton.mp hsr
        subst this
        rw [sameKey_symm]
        exact hr r' hr'
    calc upsert t (r :: rs) = upsert (insertOrReplace t r) rs := rfl
      _ = upsert (t ++ [r]) rs := by rw [step]
      _ = (t ++ [r]) ++ rs := ih (t ++ [r]) hcross' hrs
      _ = t ++ (r :: rs) := by simp

/-- **C5.** Starting from a table without records of category `c`, upserting
a batch of records of category `c` with pairwise distinct keys and then
querying that category returns exactly the upserted records (projected to
the selected columns), sorted by date ascending. -/
theorem claim_C5_upsert_then_get (t recs : List Row) (c : String)
    (ht : ∀ r ∈ t, r.categoria ≠ c)
    (hr : ∀ r ∈ recs, r.categoria = c)
    (hk : recs.Pairwise (fun a b => sameKey a b = false)) :
    (buscar_dados_categoria (upsert t recs) c).Perm
        (recs.map (fun r => (r.data, r.termo_busca, r.interesse)))
    ∧ List.Pairwise (fun a b => a.1 ≤ b.1) (buscar_dados_categoria (upsert t recs) c) := by
  have hcross : ∀ r ∈ recs, ∀ s ∈ t, sameKey r s = false := by
    intro r hrr s hst
    by_contra hcon
    have hkey : sameKey r s = true := by
      cases hx : sameKey r s
      · exact absurd hx hcon
      · rfl
    exact ht s hst ((sameKey_categoria hkey).symm.trans (hr r hrr))
  have hup : upsert t recs = t ++ recs := upsert_no_conflict recs t hcross hk
  have hfilter : (t ++ recs).filter (fun r => r.categoria == c) = recs := by
    rw [List.filter_append]
    rw [List.filter_eq_nil_iff.mpr (by intro a ha; simp [ht a ha])]
    rw [List.filter_eq_self.mpr (by intro a ha; simp [hr a ha])]
    simp
  constructor
  · rw [buscar_dados_categoria, hup, hfilter]
    exact ordenarPor_perm _ _
  · exact ordenarPor_pairwise _ _

/-- Witness for C5 at a concrete batch (two records, dates out of order). -/
theorem claim_C5_upsert_then_get_witness :
    (buscar_dados_categoria
        (upsert [] [Row.mk "2020-01-12" "rato" 5 "BR" "Ratos",
          Row.mk "2020-01-05" "ratazana" 7 "BR" "Ratos"]) "Ratos").Perm
        ([Row.mk "2020-01-12" "rato" 5 "BR" "Ratos",
          Row.mk "2020-01-05" "ratazana" 7 "BR" "Ratos"].map
          (fun r => (r.data, r.termo_busca, r.interesse)))
    ∧ List.Pairwise (fun a b => a.1 ≤ b.1)
        (buscar_dados_categoria
          (upsert [] [Row.mk "2020-01-12" "rato" 5 "BR" "Ratos",
            Row.mk "2020-01-05" "ratazana" 7 "BR" "Ratos"]) "Ratos") :=
  claim_C5_upsert_then_get _ _ "Ratos" (by decide) (by decide) (by decide)

theorem countP_categoria_replace (r : Row) (c : String) :
    ∀ t : List Row, t.Pairwise (fun a b => sameKey a b = false) →
      (∃ s ∈ t, sameKey r s = true) → r.categoria = c →
      (t.filter (fun s => !(sameKey r s))).countP (fun s => s.categoria == c) + 1 =
        t.countP (fun s => s.categoria == c) := by
  intro t
  induction t with
  | nil => intro _ hmem _; simp at hmem
  | cons a t' ih =>
    intro hpw hmem hc
    rcases List.pairwise_cons.mp hpw with ⟨ha, ht'⟩
    cases hka : sameKey r a with
    | true =>
      have hnone : ∀ b ∈ t', sameKey r b = false := by
        intro b hb
        cases hkb : sameKey r b
        · rfl
        · exact absurd (sameKey_trans hka hkb) (by simp [ha b hb])
      have hfilter : t'.filter (fun s => !(sameKey r s)) = t' :=
        List.filter_eq_self.mpr (by intro s hs; simp [hnone s hs])
      have hacat : (a.categoria == c) = true := by
        simp [(sameKey_categoria hka).symm.trans hc]
      simp only [List.filter_cons, hka, Bool.not_true, List.countP_cons, hfilter]
      simp [hacat]
    | false =>
      have hmem' : ∃ s ∈ t', sameKey r s = true := by
        rcases hmem with ⟨s, hs, hks⟩
        rcases List.mem_cons.mp hs with rfl | hst
        · exact absurd hks (by simp [hka])
        · exact ⟨s, hst, hks⟩
      have := ih ht' hmem' hc
      simp [List.filter_cons, hka, List.countP_cons]
      omega

/-- **C6.** On a table whose rows have pairwise distinct keys, re-upserting a
record whose key is already present overwrites instead of duplicating: the
row count `get_category` reports for that category is unchanged, the new
record is stored, and it is the only row with that key. -/
theorem claim_C6_overwrite_not_duplicate (t : List Row) (r : Row)
    (hpw : t.Pairwise (fun a b => sameKey a b = false))
    (hmem : ∃ s ∈ t, sameKey r s = true) :
    (buscar_dados_categoria (upsert t [r]) r.categoria).length =
        (buscar_dados_categoria t r.categoria).length
    ∧ r ∈ upsert t [r]
    ∧ ∀ s ∈ upsert t [r], sameKey r s = true → s = r := by
  have hup : upsert t [r] = t.filter (fun s => !(sameKey r s)) ++ [r] := rfl
  refine ⟨?_, ?_, ?_⟩
  · have hlen : ∀ (table : List Row) (c : String),
        (buscar_dados_categoria table c).length =
          table.countP (fun s => s.categoria == c) := by
      intro table c
      rw [buscar_dados_categoria]
      rw [(ordenarPor_perm _ _).length_eq, List.length_map,
        List.countP_eq_length_filter]
    rw [hlen, hlen, hup]
    rw [List.countP_append]
    have hcount := countP_categoria_replace r r.categoria t hpw hmem rfl
    simp only [List.countP_cons, List.countP_nil]
    simp at hcount ⊢
    omega
  · rw [hup]
    exact List.mem_append.mpr (Or.inr (List.mem_singleton.mpr rfl))
  · intro s hs hkey
    rw [hup] at hs
    rcases List.mem_append.mp hs with hsf | hsr
    · rcases List.mem_filter.mp hsf with ⟨_, hcond⟩
      rw [hkey] at hcond
      simp at hcond
    · exact List.mem_singleton.mp hsr

/-- Witness for C6: overwrite an existing key with a new interest value. -/
theorem claim_C6_overwrite_not_duplicate_witness :
    (buscar_dados_categoria
        (upsert [Row.mk "2020-01-05" "rato" 5 "BR" "Ratos",
          Row.mk "2020-01-12" "rato" 9 "BR" "Ratos"]
          [Row.mk "2020-01-05" "rato" 63 "BR" "Ratos"]) "Ratos").length =
      (buscar_dados_categoria
        [Row.mk "2020-01-05" "rato" 5 "BR" "Ratos",
          Row.mk "2020-01-12" "rato" 9 "BR" "Ratos"] "Ratos").length
    ∧ Row.mk "2020-01-05" "rato" 63 "BR" "Ratos" ∈
        upsert [Row.mk "2020-01-05" "rato" 5 "BR" "Ratos",
          Row.mk "2020-01-12" "rato" 9 "BR" "Ratos"]
          [Row.mk "2020-01-05" "rato" 63 "BR" "Ratos"]
    ∧ ∀ s ∈ upsert [Row.mk "2020-01-05" "rato" 5 "BR" "Ratos",
          Row.mk "2020-01-12" "rato" 9 "BR" "Ratos"]
          [Row.mk "2020-01-05" "rato" 63 "BR" "Ratos"],
        sameKey (Row.mk "2020-01-05" "rato" 63 "BR" "Ratos") s = true →
          s = Row.mk "2020-01-05" "rato" 63 "BR" "Ratos" :=
  claim_C6_overwrite_not_duplicate _ _ (by decide) (by decide)

/-- **C9.** For every state of the store, `listar_categorias` returns a list
of category names without duplicates, sorted ascending. -/
theorem claim_C9_categories_sorted_nodup (table : List Row) :
    (listar_categorias table).Nodup
    ∧ List.Pairwise (fun a b => a ≤ b) (listar_categorias table) := by
  constructor
  · have h := (ordenarPor_perm id ((table.map (fun r => r.categoria)).dedup)).symm.nodup
      (List.nodup_dedup _)
    simpa [listar_categorias] using h
  · have h := ordenarPor_pairwise id ((table.map (fun r => r.categoria)).dedup)
    simpa [listar_categorias] using h

theorem executemanyFallible_fail (fails : Nat → Bool) :
    ∀ (rs : List Row) (t : List Row) (i : Nat),
      (∃ j, j < rs.length ∧ fails (i + j) = true) →
      executemanyFallible t rs i fails = none := by
  intro rs
  induction rs with
  | nil => intro t i h; rcases h with ⟨j, hj, _⟩; simp at hj
  | cons r rs' ih =>
    intro t i h
    rw [executemanyFallible]
    cases hf : fails i with
    | true => simp
    | false =>
      simp only [Bool.false_eq_true, if_false]
      rcases h with ⟨j, hj, hfj⟩
      cases j with
      | zero => rw [Nat.add_zero] at hfj; rw [hfj] at hf; exact absurd hf (by simp)
      | succ j' =>
        exact ih _ (i + 1) ⟨j', by simpa using hj, by
          have : i + 1 + j' = i + (j' + 1) := by omega
          rw [this]; exact hfj⟩

theorem executemanyFallible_ok (fails : Nat → Bool) (hok : ∀ j, fails j = false) :
    ∀ (rs : List Row) (t : List Row) (i : Nat),
      executemanyFallible t rs i fails = some (upsert t rs) := by
  intro rs
  induction rs with
  | nil => intro t i; rfl
  | cons r rs' ih =>
    intro t i
    rw [executemanyFallible, hok i]
    simp only [Bool.false_eq_true, if_false]
    exact ih (insertOrReplace t r) (i + 1)

/-- **C8.** A save is atomic: if the storage layer fails on any record of the
batch, `salvar_dados_no_banco` returns with the stored table exactly as it
was (no partial commit); if nothing fails, the whole melted batch is
upserted. -/
theorem claim_C8_save_is_atomic (table : List Row) (df : DataFrame)
    (categoria geo : String) (fails : Nat → Bool) :
    ((∃ j, j < (meltRecords df categoria geo).length ∧ fails j = true) →
      salvar_dados_no_banco table df categoria geo fails = table)
    ∧ ((∀ j, fails j = false) →
      salvar_dados_no_banco table df categoria geo fails =
        upsert table (meltRecords df categoria geo)) := by
  constructor
  · intro h
    rw [salvar_dados_no_banco,
      executemanyFallible_fail fails (meltRecords df categoria geo) table 0 (by simpa using h)]
  · intro h
    rw [salvar_dados_no_banco, executemanyFallible_ok fails h]

/-- Witness for C8: a failure on the second record leaves the table intact;
no failures commit the whole batch. -/
theorem claim_C8_save_is_atomic_witness :
    salvar_dados_no_banco [Row.mk "2020-01-05" "velho" 1 "BR" "Ratos"]
        (DataFrame.mk ["2020-01-05", "2020-01-12"] [("rato", [5, 9])])
        "Ratos" "BR" (fun j => j == 1) =
      [Row.mk "2020-01-05" "velho" 1 "BR" "Ratos"]
    ∧ salvar_dados_no_banco [Row.mk "2020-01-05" "velho" 1 "BR" "Ratos"]
        (DataFrame.mk ["2020-01-05", "2020-01-12"] [("rato", [5, 9])])
        "Ratos" "BR" (fun _ => false) =
      upsert [Row.mk "2020-01-05" "velho" 1 "BR" "Ratos"]
        (meltRecords (DataFrame.mk ["2020-01-05", "2020-01-12"] [("rato", [5, 9])])
          "Ratos" "BR") :=
  ⟨(claim_C8_save_is_atomic _ _ "Ratos" "BR" _).1 ⟨1, by decide, by decide⟩,
   (claim_C8_save_is_atomic _ _ "Ratos" "BR" _).2 (fun _ => rfl)⟩

/-- **C1 (refutation evidence).** The collector writes to its own
`DB_FILE` (`tendencias_pragas_v4.db`) while the standalone viewer and the
batch chart generator read `visualizador.DB_FILE`
(`tendencias_pragas.db`).  On a fresh file system, after a collection run
that stores one category, the collector's own file lists that category but
`gerar_todos_graficos` sees no categories and writes no chart file at all —
the read side is not the storage file the collection run writes to. -/
theorem claim_C1_db_file_divergence :
    Coletor.DB_FILE ≠ Visualizador.DB_FILE
    ∧ listar_categorias
        ((coletorMain (fun _ => [])
          [("Lesmas", some (DataFrame.mk ["2020-01-05"] [("lesma", [42])]))])
          Coletor.DB_FILE) = ["Lesmas"]
    ∧ gerar_todos_graficos
        (coletorMain (fun _ => [])
          [("Lesmas", some (DataFrame.mk ["2020-01-05"] [("lesma", [42])]))]) = [] := by
  refine ⟨by decide, by decide, ?_⟩
  have hread : (coletorMain (fun _ => [])
      [("Lesmas", some (DataFrame.mk ["2020-01-05"] [("lesma", [42])]))])
      Visualizador.DB_FILE = [] := by decide
  rw [gerar_todos_graficos, hread]
  decide

/-! ## Calendar lemmas -/

theorem monthLen_pos (k : Nat) : 0 < monthLen k := by
  unfold monthLen
  repeat' split
  all_goals omega

theorem le_monthLen (k : Nat) : 28 ≤ monthLen k := by
  unfold monthLen
  repeat' split
  all_goals omega

theorem monthStart_lower (k : Nat) : 28 * k ≤ monthStart k := by
  induction k with
  | zero => simp [monthStart]
  | succ n ih =>
    have := le_monthLen n
    rw [monthStart]
    omega

theorem monthStart_lt_succ (k : Nat) : monthStart k < monthStart (k + 1) := by
  have := monthLen_pos k
  rw [monthStart]
  omega

theorem monthStart_mono {k l : Nat} (h : k ≤ l) : monthStart k ≤ monthStart l := by
  induction l with
  | zero => simp_all
  | succ n ih =>
    rcases Nat.lt_or_ge k (n + 1) with hk | hk
    · exact le_trans (ih (by omega)) (le_of_lt (monthStart_lt_succ n))
    · have : k = n + 1 := by omega
      subst this
      exact le_refl _

theorem monthStart_strict_mono {k l : Nat} (h : k < l) : monthStart k < monthStart l :=
  lt_of_lt_of_le (monthStart_lt_succ k) (monthStart_mono h)

theorem monthStart_le_reflect {k l : Nat} (h : monthStart k ≤ monthStart l) : k ≤ l := by
  by_contra hc
  exact absurd h (not_le.mpr (monthStart_strict_mono (by omega)))

theorem monthIdxGo_spec (z : Nat) :
    ∀ (fuel k : Nat), monthStart k ≤ z → z < monthStart (k + fuel) →
      monthStart (monthIdxGo z (monthStart k) k fuel) ≤ z
      ∧ z < monthStart (monthIdxGo z (monthStart k) k fuel + 1) := by
  intro fuel
  induction fuel with
  | zero =>
    intro k hk hz
    rw [Nat.add_zero] at hz
    omega
  | succ f ih =>
    intro k hk hz
    rw [monthIdxGo]
    have hdef : monthStart k + monthLen k = monthStart (k + 1) := rfl
    by_cases hstep : monthStart k + monthLen k ≤ z
    · rw [if_pos hstep, hdef]
      refine ih (k + 1) (hdef ▸ hstep) ?_
      have : k + 1 + f = k + (f + 1) := by omega
      rw [this]
      exact hz
    · rw [if_neg hstep]
      exact ⟨hk, by omega⟩

theorem monthIdx_spec (z : Nat) :
    monthStart (monthIdx z) ≤ z ∧ z < monthStart (monthIdx z + 1) := by
  have h0 : monthStart 0 ≤ z := by simp [monthStart]
  have h1 : z < monthStart (0 + (z + 1)) := by
    have := monthStart_lower (z + 1)
    simp only [Nat.zero_add]
    omega
  have := monthIdxGo_spec z (z + 1) 0 h0 h1
  simpa [monthIdx, monthStart] using this

theorem monthIdx_mono {z1 z2 : Nat} (h : z1 ≤ z2) : monthIdx z1 ≤ monthIdx z2 := by
  by_contra hc
  have h1 := (monthIdx_spec z1).1
  have h2 := (monthIdx_spec z2).2
  have : monthIdx z2 + 1 ≤ monthIdx z1 := by omega
  have := monthStart_mono this
  omega

theorem monthIdx_monthStart (k : Nat) : monthIdx (monthStart k) = k := by
  have h1 := (monthIdx_spec (monthStart k)).1
  have h2 := (monthIdx_spec (monthStart k)).2
  have hle : monthIdx (monthStart k) ≤ k := monthStart_le_reflect h1
  have hlt : k < monthIdx (monthStart k) + 1 := by
    by_contra hc
    have hge : monthIdx (monthStart k) + 1 ≤ k := by omega
    exact absurd h2 (not_lt.mpr (monthStart_mono hge))
  omega

theorem lt_monthStart_iff {z m : Nat} : z < monthStart m ↔ monthIdx z < m := by
  constructor
  · intro h
    by_contra hc
    have hm : m ≤ monthIdx z := by omega
    have := monthStart_mono hm
    have := (monthIdx_spec z).1
    omega
  · intro h
    have : monthIdx z + 1 ≤ m := by omega
    have := monthStart_mono this
    have := (monthIdx_spec z).2
    omega

theorem weekLabel_ge (z : Nat) : z ≤ weekLabel z := by
  rw [weekLabel]
  omega

/-! ## Series lemmas (min/max folds, dropna, mean, resampling) -/

theorem foldl_max_ge_init {α γ : Type} [LinearOrder γ] (g : α → γ) :
    ∀ (l : List α) (a : γ), a ≤ l.foldl (fun x q => max x (g q)) a := by
  intro l
  induction l with
  | nil => intro a; exact le_refl a
  | cons p t ih => intro a; exact le_trans (le_max_left a (g p)) (ih (max a (g p)))

theorem foldl_max_ge_mem {α γ : Type} [LinearOrder γ] (g : α → γ) :
    ∀ (l : List α) (a : γ) (q : α), q ∈ l → g q ≤ l.foldl (fun x q => max x (g q)) a := by
  intro l
  induction l with
  | nil => intro a q hq; simp at hq
  | cons p t ih =>
    intro a q hq
    rcases List.mem_cons.mp hq with rfl | hqt
    · exact le_trans (le_max_right a (g q)) (foldl_max_ge_init g t (max a (g q)))
    · exact ih (max a (g p)) q hqt

theorem foldl_max_mem {α γ : Type} [LinearOrder γ] (g : α → γ) :
    ∀ (l : List α) (a : γ),
      l.foldl (fun x q => max x (g q)) a = a ∨
        ∃ q ∈ l, l.foldl (fun x q => max x (g q)) a = g q := by
  intro l
  induction l with
  | nil => intro a; exact Or.inl rfl
  | cons p t ih =>
    intro a
    rcases ih (max a (g p)) with h | ⟨q, hq, hfq⟩
    · rcases max_choice a (g p) with hm | hm
      · exact Or.inl (by rw [List.foldl_cons, h, hm])
      · exact Or.inr ⟨p, List.mem_cons_self p t, by rw [List.foldl_cons, h, hm]⟩
    · exact Or.inr ⟨q, List.mem_cons_of_mem p hq, by rw [List.foldl_cons]; exact hfq⟩

theorem foldl_min_le_init {α γ : Type} [LinearOrder γ] (g : α → γ) :
    ∀ (l : List α) (a : γ), l.foldl (fun x q => min x (g q)) a ≤ a := by
  intro l
  induction l with
  | nil => intro a; exact le_refl a
  | cons p t ih => intro a; exact le_trans (ih (min a (g p))) (min_le_left a (g p))

theorem foldl_min_le_mem {α γ : Type} [LinearOrder γ] (g : α → γ) :
    ∀ (l : List α) (a : γ) (q : α), q ∈ l → l.foldl (fun x q => min x (g q)) a ≤ g q := by
  intro l
  induction l with
  | nil => intro a q hq; simp at hq
  | cons p t ih =>
    intro a q hq
    rcases List.mem_cons.mp hq with rfl | hqt
    · exact le_trans (foldl_min_le_init g t (min a (g q))) (min_le_right a (g q))
    · exact ih (min a (g p)) q hqt

theorem foldl_min_mem {α γ : Type} [LinearOrder γ] (g : α → γ) :
    ∀ (l : List α) (a : γ),
      l.foldl (fun x q => min x (g q)) a = a ∨
        ∃ q ∈ l, l.foldl (fun x q => min x (g q)) a = g q := by
  intro l
  induction l with
  | nil => intro a; exact Or.inl rfl
  | cons p t ih =>
    intro a
    rcases ih (min a (g p)) with h | ⟨q, hq, hfq⟩
    · rcases min_choice a (g p) with hm | hm
      · exact Or.inl (by rw [List.foldl_cons, h, hm])
      · exact Or.inr ⟨p, List.mem_cons_self p t, by rw [List.foldl_cons, h, hm]⟩
    · exact Or.inr ⟨q, List.mem_cons_of_mem p hq, by rw [List.foldl_cons]; exact hfq⟩

theorem le_maxDate (df : List (Nat × ℚ)) : ∀ p ∈ df, p.1 ≤ maxDate df := by
  intro p hp
  cases df with
  | nil => simp at hp
  | cons q t =>
    rcases List.mem_cons.mp hp with rfl | hpt
    · exact foldl_max_ge_init (fun r => r.1) t p.1
    · exact foldl_max_ge_mem (fun r => r.1) t q.1 p hpt

theorem maxDate_mem {df : List (Nat × ℚ)} (h : df ≠ []) : ∃ p ∈ df, maxDate df = p.1 := by
  cases df with
  | nil => exact absurd rfl h
  | cons q t =>
    rcases foldl_max_mem (fun r => r.1) t q.1 with hq | ⟨p, hp, hfp⟩
    · exact ⟨q, List.mem_cons_self q t, hq⟩
    · exact ⟨p, List.mem_cons_of_mem q hp, hfp⟩

theorem minDate_le (df : List (Nat × ℚ)) : ∀ p ∈ df, minDate df ≤ p.1 := by
  intro p hp
  cases df with
  | nil => simp at hp
  | cons q t =>
    rcases List.mem_cons.mp hp with rfl | hpt
    · exact foldl_min_le_init (fun r => r.1) t p.1
    · exact foldl_min_le_mem (fun r => r.1) t q.1 p hpt

theorem minDate_mem {df : List (Nat × ℚ)} (h : df ≠ []) : ∃ p ∈ df, minDate df = p.1 := by
  cases df with
  | nil => exact absurd rfl h
  | cons q t =>
    rcases foldl_min_mem (fun r => r.1) t q.1 with hq | ⟨p, hp, hfp⟩
    · exact ⟨q, List.mem_cons_self q t, hq⟩
    · exact ⟨p, List.mem_cons_of_mem q hp, hfp⟩

theorem foldl_maxQ_ge_init :
    ∀ (l : List (Nat × ℚ)) (a : ℚ), a ≤ l.foldl (fun x q => max x q.2) a := by
  intro l
  induction l with
  | nil => intro a; exact le_refl a
  | cons p t ih => intro a; exact le_trans (le_max_left a p.2) (ih (max a p.2))

theorem foldl_maxQ_ge_mem :
    ∀ (l : List (Nat × ℚ)) (a : ℚ) (q : Nat × ℚ), q ∈ l →
      q.2 ≤ l.foldl (fun x q => max x q.2) a := by
  intro l
  induction l with
  | nil => intro a q hq; simp at hq
  | cons p t ih =>
    intro a q hq
    rcases List.mem_cons.mp hq with rfl | hqt
    · exact le_trans (le_max_right a q.2) (foldl_maxQ_ge_init t (max a q.2))
    · exact ih (max a p.2) q hqt

theorem foldl_maxQ_mem :
    ∀ (l : List (Nat × ℚ)) (a : ℚ),
      l.foldl (fun x q => max x q.2) a = a ∨
        ∃ q ∈ l, l.foldl (fun x q => max x q.2) a = q.2 := by
  intro l
  induction l with
  | nil => intro a; exact Or.inl rfl
  | cons p t ih =>
    intro a
    rcases ih (max a p.2) with h | ⟨q, hq, hfq⟩
    · rcases max_choice a p.2 with hm | hm
      · exact Or.inl (by rw [List.foldl_cons, h, hm])
      · exact Or.inr ⟨p, List.mem_cons_self p t, by rw [List.foldl_cons, h, hm]⟩
    · exact Or.inr ⟨q, List.mem_cons_of_mem p hq, by rw [List.foldl_cons]; exact hfq⟩

theorem le_maxInteresse (df : List (Nat × ℚ)) : ∀ p ∈ df, p.2 ≤ maxInteresse df := by
  intro p hp
  cases df with
  | nil => simp at hp
  | cons q t =>
    rcases List.mem_cons.mp hp with rfl | hpt
    · exact foldl_maxQ_ge_init t p.2
    · exact foldl_maxQ_ge_mem t q.2 p hpt

theorem maxInteresse_mem {df : List (Nat × ℚ)} (h : df ≠ []) :
    ∃ p ∈ df, maxInteresse df = p.2 := by
  cases df with
  | nil => exact absurd rfl h
  | cons q t =>
    rcases foldl_maxQ_mem t q.2 with hq | ⟨p, hp, hfp⟩
    · exact ⟨q, List.mem_cons_self q t, hq⟩
    · exact ⟨p, List.mem_cons_of_mem q hp, hfp⟩

theorem dropna_mem {l : List (Nat × Option ℚ)} {y : Nat × ℚ} :
    y ∈ dropna l ↔ ∃ q ∈ l, q.1 = y.1 ∧ q.2 = some y.2 := by
  rw [dropna, List.mem_filterMap]
  constructor
  · rintro ⟨a, ha, hfa⟩
    rcases Option.map_eq_some'.mp hfa with ⟨v, hv, hy⟩
    exact ⟨a, ha, by rw [← hy], by rw [hv, ← hy]⟩
  · rintro ⟨q, hq, h1, h2⟩
    refine ⟨q, hq, ?_⟩
    rw [h2]
    simp only [Option.map_some']
    rw [h1]

theorem dropna_append (l l' : List (Nat × Option ℚ)) :
    dropna (l ++ l') = dropna l ++ dropna l' := by
  rw [dropna, dropna, dropna, List.filterMap_append]

theorem dropna_pairwise {R : Nat → Nat → Prop} :
    ∀ {l : List (Nat × Option ℚ)}, List.Pairwise (fun x y => R x.1 y.1) l →
      List.Pairwise (fun x y => R x.1 y.1) (dropna l) := by
  intro l
  induction l with
  | nil => intro _; simp [dropna]
  | cons p t ih =>
    intro h
    rcases List.pairwise_cons.mp h with ⟨hp, ht⟩
    rw [dropna, List.filterMap_cons]
    cases h2 : p.2 with
    | none => simpa [dropna] using ih ht
    | some v =>
      simp only [Option.map_some']
      refine List.pairwise_cons.mpr ⟨?_, by simpa [dropna] using ih ht⟩
      intro y hy
      rcases dropna_mem.mp (by simpa [dropna] using hy) with ⟨q, hq, h1, _⟩
      have := hp q hq
      simpa [← h1] using this

theorem dropna_length (l : List (Nat × Option ℚ)) :
    (dropna l).length = l.countP (fun p => p.2.isSome) := by
  induction l with
  | nil => rfl
  | cons p t ih =>
    rw [dropna, List.filterMap_cons, List.countP_cons]
    cases h2 : p.2 with
    | none =>
      simp only [h2, Option.map_none']
      rw [← dropna, ih]
      simp [h2]
    | some v =>
      simp only [h2, Option.map_some']
      rw [List.length_cons, ← dropna, ih]
      simp [h2]

theorem mean_isSome {l : List ℚ} : (mean l).isSome = true ↔ l ≠ [] := by
  rw [mean]
  by_cases h : l = [] <;> simp [h]

theorem dropna_values_nonneg {l : List (Nat × Option ℚ)}
    (h : ∀ q ∈ l, ∀ v, q.2 = some v → 0 ≤ v) :
    ∀ y ∈ dropna l, 0 ≤ y.2 := by
  intro y hy
  rcases dropna_mem.mp hy with ⟨q, hq, _, h2⟩
  exact h q hq y.2 h2

theorem mean_nonneg {l : List ℚ} {v : ℚ} (hl : ∀ x ∈ l, 0 ≤ x)
    (hv : mean l = some v) : 0 ≤ v := by
  rw [mean] at hv
  by_cases h : l = []
  · simp [h] at hv
  · rw [if_neg h] at hv
    have hsum : 0 ≤ l.sum := List.sum_nonneg hl
    have hlen : (0:ℚ) ≤ (l.length : ℚ) := by positivity
    have := div_nonneg hsum hlen
    rw [Option.some_inj] at hv
    rw [← hv]
    exact this

theorem resampleMS_pairwise (df : List (Nat × ℚ)) :
    List.Pairwise (fun x y => x.1 < y.1) (resampleMS df) := by
  by_cases h : df = []
  · simp [resampleMS, h]
  · rw [resampleMS, if_neg h]
    refine List.pairwise_map.mpr ?_
    refine (List.pairwise_lt_range _).imp ?_
    intro i j hij
    exact monthStart_strict_mono (by omega)

theorem resampleMS_label_lt {df : List (Nat × ℚ)} {b : Nat} (hne : df ≠ [])
    (hlt : ∀ p ∈ df, p.1 < b) : ∀ x ∈ resampleMS df, x.1 < b := by
  intro x hx
  rw [resampleMS, if_neg hne] at hx
  rcases List.mem_map.mp hx with ⟨i, hi, hxi⟩
  have hin : i < monthIdx (maxDate df) - monthIdx (minDate df) + 1 := List.mem_range.mp hi
  rcases maxDate_mem hne with ⟨pmax, hpmax, hmaxeq⟩
  rcases minDate_mem hne with ⟨pmin, hpmin, hmineq⟩
  have hm0m1 : monthIdx (minDate df) ≤ monthIdx (maxDate df) := by
    refine monthIdx_mono ?_
    rw [hmineq]
    exact le_maxDate df pmin hpmin
  have hle : monthIdx (minDate df) + i ≤ monthIdx (maxDate df) := by omega
  have hx1 : x.1 = monthStart (monthIdx (minDate df) + i) := by rw [← hxi]
  rw [hx1]
  calc monthStart (monthIdx (minDate df) + i)
      ≤ monthStart (monthIdx (maxDate df)) := monthStart_mono hle
    _ ≤ maxDate df := (monthIdx_spec (maxDate df)).1
    _ < b := by rw [hmaxeq]; exact hlt pmax hpmax

theorem resampleW_pairwise (df : List (Nat × ℚ)) :
    List.Pairwise (fun x y => x.1 < y.1) (resampleW df) := by
  by_cases h : df = []
  · simp [resampleW, h]
  · rw [resampleW, if_neg h]
    refine List.pairwise_map.mpr ?_
    refine (List.pairwise_lt_range _).imp ?_
    intro i j hij
    omega

theorem resampleW_label_ge {df : List (Nat × ℚ)} {b : Nat} (hne : df ≠ [])
    (hge : ∀ p ∈ df, b ≤ p.1) : ∀ x ∈ resampleW df, b ≤ x.1 := by
  intro x hx
  rw [resampleW, if_neg hne] at hx
  rcases List.mem_map.mp hx with ⟨i, _, hxi⟩
  have hx1 : x.1 = weekLabel (minDate df) + 7 * i := by rw [← hxi]
  rcases minDate_mem hne with ⟨pmin, hpmin, hmineq⟩
  have h1 : b ≤ minDate df := by rw [hmineq]; exact hge pmin hpmin
  have h2 := weekLabel_ge (minDate df)
  omega

theorem range_toFinset_eq (n : Nat) : (List.range n).toFinset = Finset.range n := by
  ext x
  simp [List.mem_toFinset, List.mem_range, Finset.mem_range]

/-- The number of non-NaN monthly buckets equals the number of distinct
calendar months carrying data. -/
theorem dropna_resampleMS_length (df : List (Nat × ℚ)) :
    (dropna (resampleMS df)).length =
      ((df.map (fun p => monthIdx p.1)).dedup).length := by
  by_cases hne : df = []
  · simp [hne, resampleMS, dropna]
  · rw [resampleMS, if_neg hne]
    rw [dropna_length, List.countP_map]
    have hmemM : ∀ k : Nat, k ∈ (df.map (fun p => monthIdx p.1)).toFinset ↔
        ∃ p ∈ df, monthIdx p.1 = k := by
      intro k
      rw [List.mem_toFinset, List.mem_map]
    have hpt : ∀ i ∈ List.range (monthIdx (maxDate df) - monthIdx (minDate df) + 1),
        (((fun p : Nat × Option ℚ => p.2.isSome) ∘ (fun i =>
          (monthStart (monthIdx (minDate df) + i),
            mean ((df.filter (fun p => monthIdx p.1 = monthIdx (minDate df) + i)).map
              (fun p => p.2))))) i = true) ↔
        ((fun i => decide ((monthIdx (minDate df) + i) ∈
          (df.map (fun p => monthIdx p.1)).toFinset)) i = true) := by
      intro i _
      simp only [Function.comp, decide_eq_true_eq]
      rw [mean_isSome, hmemM]
      rw [Ne, List.map_eq_nil_iff]
      constructor
      · intro hfil
        rcases List.exists_mem_of_ne_nil _ hfil with ⟨p, hp⟩
        rcases List.mem_filter.mp hp with ⟨hpdf, hpi⟩
        exact ⟨p, hpdf, by simpa using hpi⟩
      · rintro ⟨p, hp, hpk⟩
        intro hnil
        have : p ∈ df.filter (fun p => monthIdx p.1 = monthIdx (minDate df) + i) :=
          List.mem_filter.mpr ⟨hp, by simpa using hpk⟩
        rw [hnil] at this
        simp at this
    rw [List.countP_congr hpt]
    rw [List.countP_eq_length_filter]
    have hnodup : ((List.range (monthIdx (maxDate df) - monthIdx (minDate df) + 1)).filter
        (fun i => decide ((monthIdx (minDate df) + i) ∈
          (df.map (fun p => monthIdx p.1)).toFinset))).Nodup :=
      (List.nodup_range _).filter _
    rw [← List.toFinset_card_of_nodup hnodup, List.toFinset_filter, range_toFinset_eq]
    have himg : ((Finset.range (monthIdx (maxDate df) - monthIdx (minDate df) + 1)).filter
          (fun i => decide ((monthIdx (minDate df) + i) ∈
            (df.map (fun p => monthIdx p.1)).toFinset) = true)).image
          (fun i => monthIdx (minDate df) + i) =
        (df.map (fun p => monthIdx p.1)).toFinset := by
      ext x
      simp only [Finset.mem_image, Finset.mem_filter, Finset.mem_range, decide_eq_true_eq]
      constructor
      · rintro ⟨i, ⟨_, hiM⟩, rfl⟩
        exact hiM
      · intro hxM
        have hbounds : monthIdx (minDate df) ≤ x ∧ x ≤ monthIdx (maxDate df) := by
          rcases (hmemM x).mp hxM with ⟨p, hp, hpx⟩
          constructor
          · rw [← hpx]; exact monthIdx_mono (minDate_le df p hp)
          · rw [← hpx]; exact monthIdx_mono (le_maxDate df p hp)
        refine ⟨x - monthIdx (minDate df), ⟨by omega, ?_⟩, by omega⟩
        rw [show monthIdx (minDate df) + (x - monthIdx (minDate df)) = x by omega]
        exact hxM
    have hinj : Set.InjOn (fun i => monthIdx (minDate df) + i)
        ↑((Finset.range (monthIdx (maxDate df) - monthIdx (minDate df) + 1)).filter
          (fun i => decide ((monthIdx (minDate df) + i) ∈
            (df.map (fun p => monthIdx p.1)).toFinset) = true)) := by
      intro a _ b _ hab
      simpa using hab
    have hcard : ((Finset.range (monthIdx (maxDate df) - monthIdx (minDate df) + 1)).filter
          (fun i => decide ((monthIdx (minDate df) + i) ∈
            (df.map (fun p => monthIdx p.1)).toFinset) = true)).card =
        ((df.map (fun p => monthIdx p.1)).toFinset).card := by
      conv_rhs => rw [← himg]
      exact (Finset.card_image_of_injOn hinj).symm
    rw [hcard, List.card_toFinset]

theorem dropna_resampleMS_filter_lt (df : List (Nat × ℚ)) (b : Nat) :
    ∀ x ∈ dropna (resampleMS (df.filter (fun p => p.1 < b))), x.1 < b := by
  intro x hx
  by_cases hh : df.filter (fun p => p.1 < b) = []
  · rw [hh] at hx
    simp [resampleMS, dropna] at hx
  · rcases dropna_mem.mp hx with ⟨q, hq, hq1, _⟩
    have := resampleMS_label_lt hh
      (fun p hp => by simpa using (List.mem_filter.mp hp).2) q hq
    omega

theorem dropna_resampleW_filter_ge (df : List (Nat × ℚ)) (b : Nat) :
    ∀ x ∈ dropna (resampleW (df.filter (fun p => b ≤ p.1))), b ≤ x.1 := by
  intro x hx
  by_cases hh : df.filter (fun p => b ≤ p.1) = []
  · rw [hh] at hx
    simp [resampleW, dropna] at hx
  · rcases dropna_mem.mp hx with ⟨q, hq, hq1, _⟩
    have := resampleW_label_ge hh
      (fun p hp => by simpa using (List.mem_filter.mp hp).2) q hq
    omega

theorem mixed_pairwise (df : List (Nat × ℚ)) (b : Nat) :
    List.Pairwise (fun x y : Nat × ℚ => x.1 ≤ y.1)
      (dropna (resampleMS (df.filter (fun p => p.1 < b))) ++
        dropna (resampleW (df.filter (fun p => b ≤ p.1)))) := by
  refine List.pairwise_append.mpr ⟨?_, ?_, ?_⟩
  · exact List.Pairwise.imp (fun h => le_of_lt h)
      (dropna_pairwise (resampleMS_pairwise _))
  · exact List.Pairwise.imp (fun h => le_of_lt h)
      (dropna_pairwise (resampleW_pairwise _))
  · intro x hx y hy
    have h1 := dropna_resampleMS_filter_lt df b x hx
    have h2 := dropna_resampleW_filter_ge df b y hy
    omega

/-- The mixed-granularity block, decomposed: the final series is the
monthly resample of the points strictly before the start of the last
month followed by the weekly resample of the points from that boundary
on, each with its NaN rows dropped. -/
theorem granularidadeMista_eq (df : List (Nat × ℚ)) (hne : df ≠ []) :
    granularidadeMista df =
      dropna (resampleMS (df.filter
        (fun p => p.1 < monthStart (monthIdx (maxDate df))))) ++
      dropna (resampleW (df.filter
        (fun p => monthStart (monthIdx (maxDate df)) ≤ p.1))) := by
  rw [granularidadeMista, if_neg hne]
  dsimp only
  have hmensal : (if df.filter (fun p => p.1 < monthStart (monthIdx (maxDate df))) = []
      then ([] : List (Nat × Option ℚ))
      else resampleMS (df.filter (fun p => p.1 < monthStart (monthIdx (maxDate df))))) =
      resampleMS (df.filter (fun p => p.1 < monthStart (monthIdx (maxDate df)))) := by
    by_cases h : df.filter (fun p => p.1 < monthStart (monthIdx (maxDate df))) = []
    · simp [h, resampleMS]
    · simp [h]
  have hsemanal : (if df.filter (fun p => monthStart (monthIdx (maxDate df)) ≤ p.1) = []
      then ([] : List (Nat × Option ℚ))
      else resampleW (df.filter (fun p => monthStart (monthIdx (maxDate df)) ≤ p.1))) =
      resampleW (df.filter (fun p => monthStart (monthIdx (maxDate df)) ≤ p.1)) := by
    by_cases h : df.filter (fun p => monthStart (monthIdx (maxDate df)) ≤ p.1) = []
    · simp [h, resampleW]
    · simp [h]
  rw [hmensal, hsemanal, dropna_append]
  exact ordenarPor_eq_self _ _ (mixed_pairwise df (monthStart (monthIdx (maxDate df))))

/-- **C3.** For every non-empty aggregated series: the final mixed series is
sorted by date ascending; its part strictly before the start of the most
recent calendar month in the data is exactly the NaN-dropped monthly-mean
resample of the points before that boundary; its part on or after the
boundary is exactly the NaN-dropped weekly-mean resample of the points of
the trailing month (so the weekly points cover only the trailing month);
and the number of emitted monthly points equals the number of distinct
prior calendar months that contain data. -/
theorem claim_C3_mixed_granularity (df : List (Nat × ℚ)) (hne : df ≠ []) :
    List.Pairwise (fun x y : Nat × ℚ => x.1 ≤ y.1) (granularidadeMista df)
    ∧ (granularidadeMista df).filter
        (fun p => p.1 < monthStart (monthIdx (maxDate df))) =
      dropna (resampleMS (df.filter
        (fun p => p.1 < monthStart (monthIdx (maxDate df)))))
    ∧ (granularidadeMista df).filter
        (fun p => monthStart (monthIdx (maxDate df)) ≤ p.1) =
      dropna (resampleW (df.filter
        (fun p => monthStart (monthIdx (maxDate df)) ≤ p.1)))
    ∧ ((granularidadeMista df).filter
        (fun p => p.1 < monthStart (monthIdx (maxDate df)))).length =
      (((df.filter (fun p => p.1 < monthStart (monthIdx (maxDate df)))).map
        (fun p => monthIdx p.1)).dedup).length := by
  have hdec := granularidadeMista_eq df hne
  have hA := dropna_resampleMS_filter_lt df (monthStart (monthIdx (maxDate df)))
  have hB := dropna_resampleW_filter_ge df (monthStart (monthIdx (maxDate df)))
  have hselfA : List.filter (fun p => decide (p.1 < monthStart (monthIdx (maxDate df))))
      (dropna (resampleMS (df.filter
        (fun p => p.1 < monthStart (monthIdx (maxDate df)))))) =
      dropna (resampleMS (df.filter
        (fun p => p.1 < monthStart (monthIdx (maxDate df))))) := by
    refine List.filter_eq_self.mpr ?_
    intro a ha
    exact decide_eq_true (hA a ha)
  have hnilB : List.filter (fun p => decide (p.1 < monthStart (monthIdx (maxDate df))))
      (dropna (resampleW (df.filter
        (fun p => monthStart (monthIdx (maxDate df)) ≤ p.1)))) = [] := by
    refine List.filter_eq_nil_iff.mpr ?_
    intro a ha
    have := hB a ha
    simp only [decide_eq_true_eq]
    omega
  have hnilA : List.filter (fun p => decide (monthStart (monthIdx (maxDate df)) ≤ p.1))
      (dropna (resampleMS (df.filter
        (fun p => p.1 < monthStart (monthIdx (maxDate df)))))) = [] := by
    refine List.filter_eq_nil_iff.mpr ?_
    intro a ha
    have := hA a ha
    simp only [decide_eq_true_eq]
    omega
  have hselfB : List.filter (fun p => decide (monthStart (monthIdx (maxDate df)) ≤ p.1))
      (dropna (resampleW (df.filter
        (fun p => monthStart (monthIdx (maxDate df)) ≤ p.1)))) =
      dropna (resampleW (df.filter
        (fun p => monthStart (monthIdx (maxDate df)) ≤ p.1))) := by
    refine List.filter_eq_self.mpr ?_
    intro a ha
    exact decide_eq_true (hB a ha)
  have hfiltlt : (granularidadeMista df).filter
      (fun p => p.1 < monthStart (monthIdx (maxDate df))) =
      dropna (resampleMS (df.filter
        (fun p => p.1 < monthStart (monthIdx (maxDate df))))) := by
    rw [hdec, List.filter_append, hselfA, hnilB, List.append_nil]
  refine ⟨?_, hfiltlt, ?_, ?_⟩
  · rw [hdec]
    exact mixed_pairwise df (monthStart (monthIdx (maxDate df)))
  · rw [hdec, List.filter_append, hnilA, hselfB, List.nil_append]
  · rw [hfiltlt, dropna_resampleMS_length]

/-- Witness for C3: three full months of data (days 0, 35, 65) plus a point
in the trailing month (day 92 = 1970-04-03). -/
theorem claim_C3_mixed_granularity_witness :
    List.Pairwise (fun x y : Nat × ℚ => x.1 ≤ y.1)
      (granularidadeMista ([(0, 10), (35, 20), (65, 30), (92, 40)] : List (Nat × ℚ)))
    ∧ (granularidadeMista ([(0, 10), (35, 20), (65, 30), (92, 40)] : List (Nat × ℚ))).filter
        (fun p => p.1 < monthStart (monthIdx
          (maxDate ([(0, 10), (35, 20), (65, 30), (92, 40)] : List (Nat × ℚ))))) =
      dropna (resampleMS (([(0, 10), (35, 20), (65, 30), (92, 40)] : List (Nat × ℚ)).filter
        (fun p => p.1 < monthStart (monthIdx
          (maxDate ([(0, 10), (35, 20), (65, 30), (92, 40)] : List (Nat × ℚ)))))))
    ∧ (granularidadeMista ([(0, 10), (35, 20), (65, 30), (92, 40)] : List (Nat × ℚ))).filter
        (fun p => monthStart (monthIdx
          (maxDate ([(0, 10), (35, 20), (65, 30), (92, 40)] : List (Nat × ℚ)))) ≤ p.1) =
      dropna (resampleW (([(0, 10), (35, 20), (65, 30), (92, 40)] : List (Nat × ℚ)).filter
        (fun p => monthStart (monthIdx
          (maxDate ([(0, 10), (35, 20), (65, 30), (92, 40)] : List (Nat × ℚ)))) ≤ p.1)))
    ∧ ((granularidadeMista ([(0, 10), (35, 20), (65, 30), (92, 40)] : List (Nat × ℚ))).filter
        (fun p => p.1 < monthStart (monthIdx
          (maxDate ([(0, 10), (35, 20), (65, 30), (92, 40)] : List (Nat × ℚ)))))).length =
      (((([(0, 10), (35, 20), (65, 30), (92, 40)] : List (Nat × ℚ)).filter
        (fun p => p.1 < monthStart (monthIdx
          (maxDate ([(0, 10), (35, 20), (65, 30), (92, 40)] : List (Nat × ℚ)))))).map
        (fun p => monthIdx p.1)).dedup).length :=
  claim_C3_mixed_granularity _ (by decide)

/-- **C4.** Re-normalization: a combined series with values [10, 20, 40]
becomes [25, 50, 100]; on an all-zero series nothing changes (the
division by the maximum is skipped); and whenever the maximum is positive
every value is divided by it and multiplied by 100. -/
theorem claim_C4_renormalize :
    renormalizar ([(0, 10), (1, 20), (2, 40)] : List (Nat × ℚ)) =
      ([(0, 25), (1, 50), (2, 100)] : List (Nat × ℚ))
    ∧ (∀ df : List (Nat × ℚ), (∀ p ∈ df, p.2 = 0) → renormalizar df = df)
    ∧ (∀ df : List (Nat × ℚ), df ≠ [] → 0 < maxInteresse df →
        renormalizar df = df.map (fun p => (p.1, p.2 / maxInteresse df * 100))) := by
  refine ⟨?_, ?_, ?_⟩
  · have hmx : maxInteresse ([(0, 10), (1, 20), (2, 40)] : List (Nat × ℚ)) = 40 := by
      show max (max (10:ℚ) 20) 40 = 40
      rw [max_eq_right (by norm_num : (10:ℚ) ≤ 20), max_eq_right (by norm_num : (20:ℚ) ≤ 40)]
    rw [renormalizar, if_neg (by simp : ¬ ([(0, 10), (1, 20), (2, 40)] : List (Nat × ℚ)) = [])]
    dsimp only
    rw [hmx, if_pos (by norm_num : (0:ℚ) < 40)]
    norm_num
  · intro df h
    cases df with
    | nil => rfl
    | cons p t =>
      have hmx : maxInteresse (p :: t) = 0 := by
        rcases maxInteresse_mem (List.cons_ne_nil p t) with ⟨q, hq, hfq⟩
        rw [hfq]
        exact h q hq
      rw [renormalizar, if_neg (List.cons_ne_nil p t)]
      dsimp only
      rw [hmx, if_neg (lt_irrefl (0:ℚ))]
  · intro df h1 h2
    rw [renormalizar, if_neg h1]
    dsimp only
    rw [if_pos h2]

/-- Witness for C4: the all-zero branch and the positive-maximum branch at
concrete inputs. -/
theorem claim_C4_renormalize_witness :
    renormalizar ([(0, 0), (1, 0)] : List (Nat × ℚ)) = [(0, 0), (1, 0)]
    ∧ renormalizar ([(3, 2)] : List (Nat × ℚ)) =
        ([(3, 2)] : List (Nat × ℚ)).map
          (fun p => (p.1, p.2 / maxInteresse ([(3, 2)] : List (Nat × ℚ)) * 100)) :=
  ⟨claim_C4_renormalize.2.1 _ (by decide),
   claim_C4_renormalize.2.2 _ (by decide) (by decide)⟩

theorem mean_of_map_nonneg {l : List (Nat × ℚ)} (h : ∀ p ∈ l, 0 ≤ p.2) {v : ℚ}
    (hv : mean (l.map (fun p => p.2)) = some v) : 0 ≤ v := by
  refine mean_nonneg ?_ hv
  intro x hx
  rcases List.mem_map.mp hx with ⟨p, hp, rfl⟩
  exact h p hp

/-- Every value of the mixed-granularity series is a mean of input values,
so it is non-negative when the inputs are. -/
theorem granularidadeMista_nonneg (df : List (Nat × ℚ)) (h : ∀ p ∈ df, 0 ≤ p.2) :
    ∀ q ∈ granularidadeMista df, 0 ≤ q.2 := by
  intro q hq
  by_cases hne : df = []
  · rw [hne] at hq
    simp [granularidadeMista] at hq
  · rw [granularidadeMista_eq df hne] at hq
    rcases List.mem_append.mp hq with hqa | hqb
    · by_cases hh : df.filter (fun p => p.1 < monthStart (monthIdx (maxDate df))) = []
      · rw [hh] at hqa
        simp [resampleMS, dropna] at hqa
      · rcases dropna_mem.mp hqa with ⟨x, hx, _, hx2⟩
        rw [resampleMS, if_neg hh] at hx
        rcases List.mem_map.mp hx with ⟨i, _, hxi⟩
        rw [← hxi] at hx2
        refine mean_of_map_nonneg ?_ hx2
        intro p hp
        exact h p (List.mem_filter.mp (List.mem_filter.mp hp).1).1
    · by_cases hh : df.filter (fun p => monthStart (monthIdx (maxDate df)) ≤ p.1) = []
      · rw [hh] at hqb
        simp [resampleW, dropna] at hqb
      · rcases dropna_mem.mp hqb with ⟨x, hx, _, hx2⟩
        rw [resampleW, if_neg hh] at hx
        rcases List.mem_map.mp hx with ⟨i, _, hxi⟩
        rw [← hxi] at hx2
        refine mean_of_map_nonneg ?_ hx2
        intro p hp
        exact h p (List.mem_filter.mp (List.mem_filter.mp hp).1).1

/-- The fold computing the maximum commutes with the monotone rescaling
`x ↦ x / mx * 100` (for `mx > 0`). -/
theorem maxInteresse_map_div (c : List (Nat × ℚ)) (mx : ℚ) (hmx : 0 < mx) :
    maxInteresse (c.map (fun p => (p.1, p.2 / mx * 100))) =
      (if c = [] then (0:ℚ) else maxInteresse c / mx * 100) := by
  cases c with
  | nil => simp [maxInteresse]
  | cons p t =>
    rw [if_neg (List.cons_ne_nil p t)]
    suffices h : ∀ (t : List (Nat × ℚ)) (a : ℚ),
        (t.map (fun p => (p.1, p.2 / mx * 100))).foldl (fun x q => max x q.2)
            (a / mx * 100) =
          (t.foldl (fun x q => max x q.2) a) / mx * 100 by
      exact h t p.2
    intro t
    induction t with
    | nil => intro a; rfl
    | cons s t' ih =>
      intro a
      rw [List.map_cons, List.foldl_cons, List.foldl_cons]
      have hmono : ∀ x y : ℚ, x ≤ y → x / mx * 100 ≤ y / mx * 100 := by
        intro x y hxy
        gcongr
      have hmaxg : max (a / mx * 100) (s.2 / mx * 100) = (max a s.2) / mx * 100 := by
        rcases le_total a s.2 with hle | hle
        · rw [max_eq_right hle, max_eq_right (hmono a s.2 hle)]
        · rw [max_eq_left hle, max_eq_left (hmono s.2 a hle)]
      rw [hmaxg]
      exact ih (max a s.2)

/-- **C10.** When the mixed-granularity series is non-empty with positive
maximum (inputs non-negative, as interest scores are), re-normalization
changes only the interest values: dates and length are unchanged, every
output value lies in [0, 100], and the maximum output value is exactly
100. -/
theorem claim_C10_renormalize_invariants (df : List (Nat × ℚ))
    (hnn : ∀ p ∈ df, 0 ≤ p.2)
    (hne : granularidadeMista df ≠ [])
    (hmx : 0 < maxInteresse (granularidadeMista df)) :
    (renormalizar (granularidadeMista df)).map (fun p => p.1) =
      (granularidadeMista df).map (fun p => p.1)
    ∧ (renormalizar (granularidadeMista df)).length = (granularidadeMista df).length
    ∧ (∀ p ∈ renormalizar (granularidadeMista df), 0 ≤ p.2 ∧ p.2 ≤ 100)
    ∧ maxInteresse (renormalizar (granularidadeMista df)) = 100 := by
  have hform : renormalizar (granularidadeMista df) =
      (granularidadeMista df).map
        (fun p => (p.1, p.2 / maxInteresse (granularidadeMista df) * 100)) := by
    rw [renormalizar, if_neg hne]
    dsimp only
    rw [if_pos hmx]
  refine ⟨?_, ?_, ?_, ?_⟩
  · rw [hform, List.map_map]
    rfl
  · rw [hform, List.length_map]
  · intro p hp
    rw [hform] at hp
    rcases List.mem_map.mp hp with ⟨q, hq, rfl⟩
    have h0 : 0 ≤ q.2 := granularidadeMista_nonneg df hnn q hq
    have hle : q.2 ≤ maxInteresse (granularidadeMista df) := le_maxInteresse _ q hq
    constructor
    · exact mul_nonneg (div_nonneg h0 (le_of_lt hmx)) (by norm_num)
    · calc q.2 / maxInteresse (granularidadeMista df) * 100 ≤ 1 * 100 :=
            mul_le_mul_of_nonneg_right ((div_le_one hmx).mpr hle) (by norm_num)
      _ = 100 := one_mul 100
  · rw [hform, maxInteresse_map_div _ _ hmx, if_neg hne, div_self (ne_of_gt hmx), one_mul]

/-- Witness for C10 at a two-point series (one historical month, one
trailing-month point). -/
theorem claim_C10_renormalize_invariants_witness :
    (renormalizar (granularidadeMista ([(0, 10), (92, 40)] : List (Nat × ℚ)))).map
        (fun p => p.1) =
      (granularidadeMista ([(0, 10), (92, 40)] : List (Nat × ℚ))).map (fun p => p.1)
    ∧ (renormalizar (granularidadeMista ([(0, 10), (92, 40)] : List (Nat × ℚ)))).length =
      (granularidadeMista ([(0, 10), (92, 40)] : List (Nat × ℚ))).length
    ∧ (∀ p ∈ renormalizar (granularidadeMista ([(0, 10), (92, 40)] : List (Nat × ℚ))),
        0 ≤ p.2 ∧ p.2 ≤ 100)
    ∧ maxInteresse (renormalizar
        (granularidadeMista ([(0, 10), (92, 40)] : List (Nat × ℚ)))) = 100 :=
  claim_C10_renormalize_invariants _ (by decide)
    (by
      have h1 : ¬ ([(0, (10:ℚ)), (92, 40)] : List (Nat × ℚ)) = [] := by simp
      norm_num [granularidadeMista, resampleMS, resampleW, dropna, mean, maxDate, minDate,
        monthIdx, monthIdxGo, monthStart, monthLen, bissexto, weekLabel, ordenarPor, insOrd,
        h1, List.filter, List.range, List.foldl, List.filterMap, List.sum]
      exact List.cons_ne_nil _ _)
    (by
      have h1 : ¬ ([(0, (10:ℚ)), (92, 40)] : List (Nat × ℚ)) = [] := by simp
      norm_num [granularidadeMista, resampleMS, resampleW, dropna, mean, maxDate, minDate,
        monthIdx, monthIdxGo, monthStart, monthLen, bissexto, weekLabel, ordenarPor, insOrd,
        maxInteresse, h1, List.filter, List.range, List.foldl, List.filterMap, List.sum])
